import Mathlib

/-!
Verification development for the cookie-store serialization and multipart
request-body encoder of the instagram_private_api repository
(src/instagram_private_api/cookiejar.py and src/instagram_private_api/http.py).

Python values that flow through the cookie dictionary code are modelled by
the inductive type Val (None, bool, int, str, dict).  Python dicts are
modelled as ordered association lists (insertion order, first-match lookup,
in-place update of an existing key), matching CPython dict semantics.
-/

mutual

inductive Val where
  | vNone : Val
  | vBool : Bool → Val
  | vInt : Int → Val
  | vStr : String → Val
  | vDict : Entries → Val
deriving DecidableEq

inductive Entries where
  | nil : Entries
  | cons : Val → Val → Entries → Entries
deriving DecidableEq

end

/-- Python truthiness (bool()) on the modelled values: None, False, 0, the
empty string and the empty dict are falsy, everything else is truthy. -/
def truthy : Val → Bool
  | .vNone => false
  | .vBool b => b
  | .vInt n => !(n = 0)
  | .vStr s => !(s = "")
  | .vDict .nil => false
  | .vDict (.cons _ _ _) => true

/-- Numeric view of a value, for Python's cross-type numeric equality
(True == 1, False == 0). -/
def numVal : Val → Option Int
  | .vBool b => some (if b then 1 else 0)
  | .vInt n => some n
  | _ => none

/-- Python equality (==) on the modelled values.  Booleans and integers
compare numerically; dicts are compared structurally here (the code under
verification never compares two dicts for equality). -/
def pyEq (a b : Val) : Bool :=
  match numVal a, numVal b with
  | some x, some y => x = y
  | _, _ =>
    match a, b with
    | .vNone, .vNone => true
    | .vStr s, .vStr t => s = t
    | .vDict xs, .vDict ys => xs = ys
    | _, _ => false

theorem pyEq_refl (v : Val) : pyEq v v = true := by
  cases v <;> simp [pyEq, numVal]

theorem pyEq_vStr (s t : String) : pyEq (.vStr s) (.vStr t) = true ↔ s = t := by
  simp [pyEq, numVal]

/-- Dict key membership: Python's k in d. -/
def eContains (es : Entries) (k : Val) : Bool :=
  match es with
  | .nil => false
  | .cons k1 _ r => pyEq k1 k || eContains r k

/-- Dict lookup d[k] (first matching key; real Python dicts have unique keys). -/
def eLookup (es : Entries) (k : Val) : Option Val :=
  match es with
  | .nil => none
  | .cons k1 v1 r => if pyEq k1 k then some v1 else eLookup r k

/-- Dict assignment d[k] = v: updates the first matching key in place
(keeping the stored key object and its position, as CPython does), else
appends the new pair at the end. -/
def eSet (es : Entries) (k v : Val) : Entries :=
  match es with
  | .nil => .cons k v .nil
  | .cons k1 v1 r => if pyEq k1 k then .cons k1 v r else .cons k1 v1 (eSet r k v)

/-- The keys of a dict, in iteration order. -/
def eKeys (es : Entries) : List Val :=
  match es with
  | .nil => []
  | .cons k _ r => k :: eKeys r

/-- base.update(dct): assign every key/value pair of dct into base, in
dct's iteration order. -/
def eUpdate (base dct : Entries) : Entries :=
  match dct with
  | .nil => base
  | .cons k v r => eUpdate (eSet base k v) r

/-- All keys of the dict are pairwise distinct under Python equality (true
of every dict an actual Python program can build). -/
def eKeysDistinct (es : Entries) : Bool :=
  match es with
  | .nil => true
  | .cons k _ r => !(eContains r k) && eKeysDistinct r

/-- Error kinds raised by the modelled code.  The spec names the first
three MalformedCookieError, UnexpectedKeyError and InvalidDictionaryError;
in the source all of them are TypeError with distinct messages. -/
inductive PyErr where
  | malformedCookie : PyErr
  | unexpectedKeys : PyErr
  | noCookiesFound : PyErr
  | compareTypeError : PyErr
  | attributeError : PyErr
  | otherTypeError : PyErr
deriving DecidableEq

deriving instance DecidableEq for Except

/-- A cookie record: the seventeen attributes a compat_cookiejar.Cookie
carries.  Attribute values are kept as Python values, exactly what the
constructor call Cookie(**cookie_kwargs) stores. -/
structure Cookie where
  version : Val
  name : Val
  value : Val
  port : Val
  domain : Val
  path : Val
  secure : Val
  expires : Val
  discard : Val
  comment : Val
  comment_url : Val
  rfc2109 : Val
  rest : Val
  port_specified : Val
  domain_specified : Val
  domain_initial_dot : Val
  path_specified : Val
deriving DecidableEq

/-- The module-level default table _cookie_attrs, in source order. -/
def attrDefaults : List (String × Val) :=
  [("version", .vInt 0), ("name", .vStr ""), ("value", .vStr ""),
   ("port", .vNone), ("domain", .vStr ""), ("path", .vStr "/"),
   ("secure", .vBool false), ("expires", .vNone), ("discard", .vBool true),
   ("comment", .vNone), ("comment_url", .vNone), ("rfc2109", .vBool false)]

/-- getattr(cookie, attr) for the twelve fixed attribute names. -/
def getAttr (c : Cookie) (a : String) : Val :=
  match a with
  | "version" => c.version
  | "name" => c.name
  | "value" => c.value
  | "port" => c.port
  | "domain" => c.domain
  | "path" => c.path
  | "secure" => c.secure
  | "expires" => c.expires
  | "discard" => c.discard
  | "comment" => c.comment
  | "comment_url" => c.comment_url
  | "rfc2109" => c.rfc2109
  | _ => .vNone

/-- ClientCookieJar.cookie_to_dict, entry-list form: for each fixed
attribute (in _cookie_attrs order) store it only if it differs from the
default; afterwards store the vendor-extension map under "rest" if it is
truthy (non-empty). -/
def cookieDictEntries (c : Cookie) : Entries :=
  let base := List.foldl
    (fun es ad => if pyEq (getAttr c ad.1) ad.2 then es
                  else eSet es (.vStr ad.1) (getAttr c ad.1))
    Entries.nil attrDefaults
  if truthy c.rest then eSet base (.vStr "rest") c.rest else base

/-- ClientCookieJar.cookie_to_dict. -/
def cookie_to_dict (c : Cookie) : Val := .vDict (cookieDictEntries c)

/-- The keys of cookie_kwargs: the twelve fixed attributes plus "rest". -/
def kwargNames : List String :=
  ["version", "name", "value", "port", "domain", "path", "secure",
   "expires", "discard", "comment", "comment_url", "rfc2109", "rest"]

/-- The initial cookie_kwargs dict: _cookie_attrs.copy() followed by
cookie_kwargs['rest'] = {}. -/
def kwargsInit : Entries :=
  .cons (.vStr "version") (.vInt 0) (.cons (.vStr "name") (.vStr "")
  (.cons (.vStr "value") (.vStr "") (.cons (.vStr "port") .vNone
  (.cons (.vStr "domain") (.vStr "") (.cons (.vStr "path") (.vStr "/")
  (.cons (.vStr "secure") (.vBool false) (.cons (.vStr "expires") .vNone
  (.cons (.vStr "discard") (.vBool true) (.cons (.vStr "comment") .vNone
  (.cons (.vStr "comment_url") .vNone (.cons (.vStr "rfc2109") (.vBool false)
  (.cons (.vStr "rest") (.vDict .nil) .nil))))))))))))

/-- Modelled from the spec: the compat_cookiejar.Cookie constructor (the
compat module is not part of the sources under verification).  Per the
spec's record construction step it assembles the record from the final
keyword table and the four derived booleans, storing each attribute as
given. -/
def mkCookie (kw : Entries) (ps ds dot pth : Bool) : Cookie :=
  let get := fun a => (eLookup kw (.vStr a)).getD .vNone
  { version := get "version", name := get "name", value := get "value",
    port := get "port", domain := get "domain", path := get "path",
    secure := get "secure", expires := get "expires", discard := get "discard",
    comment := get "comment", comment_url := get "comment_url",
    rfc2109 := get "rfc2109", rest := get "rest",
    port_specified := .vBool ps, domain_specified := .vBool ds,
    domain_initial_dot := .vBool dot, path_specified := .vBool pth }

/-- ClientCookieJar.cookie_from_dict: reject if "name" or "value" is
missing; reject if any key falls outside the thirteen recognized keys;
otherwise overlay the supplied dict onto the defaults and recompute the
four derived booleans (_bool_attrs) from the overlaid port, domain and
path.  The domain_initial_dot computation calls .startswith on the
overlaid domain, which raises AttributeError if that value is not a
string. -/
def cookie_from_dict (dct : Val) : Except PyErr Cookie :=
  match dct with
  | .vDict es =>
    if !(eContains es (.vStr "name")) || !(eContains es (.vStr "value")) then
      .error .malformedCookie
    else if (eKeys es).any (fun k => !(kwargNames.any (fun a => pyEq k (.vStr a)))) then
      .error .unexpectedKeys
    else
      let kw := eUpdate kwargsInit es
      let ps := truthy ((eLookup kw (.vStr "port")).getD .vNone)
      let dv := (eLookup kw (.vStr "domain")).getD .vNone
      match dv with
      | .vStr s =>
        .ok (mkCookie kw ps (truthy dv) (s.startsWith ".")
              (truthy ((eLookup kw (.vStr "path")).getD .vNone)))
      | _ => .error .attributeError
  | _ => .error .otherTypeError

/-- Modelled from the spec: the CookieJar base class state.  The store is
a dict keyed by domain, of dicts keyed by path, of dicts keyed by cookie
name (iteration order: domain, then path, then name, as encountered). -/
abbrev Jar : Type := List (Val × List (Val × List (Val × Cookie)))

instance : DecidableEq (List (Val × Cookie)) := inferInstance

instance : DecidableEq (List (Val × List (Val × Cookie))) := inferInstance

instance : DecidableEq Jar := inferInstance

/-- Association-list update with Python dict semantics (used for the
store's three levels). -/
def alSet {A : Type} (l : List (Val × A)) (k : Val) (v : A) : List (Val × A) :=
  match l with
  | [] => [(k, v)]
  | p :: r => if pyEq p.1 k then (p.1, v) :: r else p :: alSet r k v

/-- Association-list lookup. -/
def alGet {A : Type} (l : List (Val × A)) (k : Val) : Option A :=
  match l with
  | [] => none
  | p :: r => if pyEq p.1 k then some p.2 else alGet r k

/-- Modelled from the spec: CookieJar.set_cookie (base class, not part of
the sources under verification): insert the record at key
(domain, path, name), replacing any record already at that key. -/
def jarSet (jar : Jar) (c : Cookie) : Jar :=
  let pd := (alGet jar c.domain).getD []
  let nd := (alGet pd c.path).getD []
  alSet jar c.domain (alSet pd c.path (alSet nd c.name c))

/-- Modelled from the spec: iteration over the CookieJar yields every
record, domain by domain, path by path, name by name. -/
def jarCookies (jar : Jar) : List Cookie :=
  jar.flatMap (fun dp => dp.2.flatMap (fun pp => pp.2.map (fun nc => nc.2)))

/-- existing_names: the list [cookie.name for cookie in self]. -/
def jarNames (jar : Jar) : List Val :=
  (jarCookies jar).map Cookie.name

/-- Python's substring test 'name' in s, on the character list of s. -/
def hasNameSub : List Char → Bool
  | 'n' :: 'a' :: 'm' :: 'e' :: _ => true
  | _ :: rest => hasNameSub rest
  | [] => false

/-- The test 'name' not in cookie_dict[key]: key membership for a dict
child, substring search for a string child, TypeError otherwise. -/
def nameNotIn (child : Val) : Except PyErr Bool :=
  match child with
  | .vDict es => .ok (!(eContains es (.vStr "name")))
  | .vStr s => .ok (!(hasNameSub s.data))
  | _ => .error .otherTypeError

mutual

/-- ClientCookieJar.set_cookies_from_dict.  Faithful to the source: the
recursive call for a child without a "name" key passes domain=domain (so a
top-level call never binds domain, and hence never binds path and never
reaches the "No Cookies found in dictionary" branch), and does not pass
overwrite, which therefore reverts to its default True in every recursive
call.  existing_names is recomputed at the start of each (recursive)
call. -/
def set_cookies_from_dict (jar : Jar) (cookie_dict : Val) (overwrite : Bool)
    (domain path : Option Val) : Except PyErr Jar :=
  if truthy cookie_dict = false then .ok jar
  else
    match cookie_dict with
    | .vDict entries => scdLoop jar (jarNames jar) entries overwrite domain path
    | _ => .error .otherTypeError

/-- The for key in cookie_dict loop body of set_cookies_from_dict,
threading the jar left to right; existing is the existing_names snapshot
taken at entry of the enclosing call. -/
def scdLoop (jar : Jar) (existing : List Val) (entries : Entries)
    (overwrite : Bool) (domain path : Option Val) : Except PyErr Jar :=
  match entries with
  | .nil => .ok jar
  | .cons key child rest =>
    match nameNotIn child with
    | .error e => .error e
    | .ok true =>
      match domain with
      | some _ =>
        match path with
        | some _ => .error .noCookiesFound
        | none =>
          match set_cookies_from_dict jar child true domain (some key) with
          | .error e => .error e
          | .ok jar1 => scdLoop jar1 existing rest overwrite domain path
      | none =>
        match set_cookies_from_dict jar child true domain none with
        | .error e => .error e
        | .ok jar1 => scdLoop jar1 existing rest overwrite domain path
    | .ok false =>
      if overwrite || !(existing.any (fun n => pyEq key n)) then
        match cookie_from_dict child with
        | .error e => .error e
        | .ok c => scdLoop (jarSet jar c) existing rest overwrite domain path
      else
        scdLoop jar existing rest overwrite domain path

end

/-- Python comparison a < b as used by min(): numeric values compare
numerically, strings lexicographically, anything else (in particular any
comparison involving None) raises TypeError. -/
def pyLt (a b : Val) : Except PyErr Bool :=
  match numVal a, numVal b with
  | some x, some y => .ok (decide (x < y))
  | _, _ =>
    match a, b with
    | .vStr s, .vStr t => .ok (decide (s < t))
    | _, _ => .error .compareTypeError

/-- The fold inside Python's min: keep the current best, replacing it
whenever a later element compares strictly below it. -/
def pyMinFold (acc : Val) : List Val → Except PyErr Val
  | [] => .ok acc
  | y :: ys =>
    match pyLt y acc with
    | .error e => .error e
    | .ok true => pyMinFold y ys
    | .ok false => pyMinFold acc ys

/-- Python min(l, default=None). -/
def pyMin (l : List Val) : Except PyErr Val :=
  match l with
  | [] => .ok .vNone
  | x :: xs => pyMinFold x xs

/-- ClientCookieJar.expires_earliest:
min([cookie.expires for cookie in self], default=None). -/
def expires_earliest (jar : Jar) : Except PyErr Val :=
  pyMin ((jarCookies jar).map Cookie.expires)

/-- The export walk state of ClientCookieJar.to_dict: the root dict being
built (cookie_dict) and where the name target currently points.  In the
source, target = target[path] = {} first rebinds target to the fresh dict
and only then evaluates target[path], so the fresh dict becomes its own
member and is never attached to cookie_dict; tgt = none models such an
orphaned target, whose subsequent insertions never reach the root.
tgt = some none is cookie_dict itself, tgt = some (some d) is
cookie_dict[d]. -/
structure ExpSt where
  root : Entries
  tgt : Option (Option Val)

/-- Set key k of the dict stored at key d of es (used for insertions
through an attached target cookie_dict[d]). -/
def eModifyDict (es : Entries) (d k v : Val) : Entries :=
  match es with
  | .nil => .nil
  | .cons k1 v1 r =>
    if pyEq k1 d then
      match v1 with
      | .vDict inner => .cons k1 (.vDict (eSet inner k v)) r
      | _ => .cons k1 v1 r
    else .cons k1 v1 (eModifyDict r d k v)

/-- target[name] = value: writes through the current target when it is
attached to the root, and is lost otherwise. -/
def targetInsert (st : ExpSt) (k v : Val) : ExpSt :=
  match st.tgt with
  | none => st
  | some none => { st with root := eSet st.root k v }
  | some (some d) => { st with root := eModifyDict st.root d k v }

/-- ClientCookieJar.to_dict.  nest_domain holds when ignore_domain is
false and the store has more than one domain; per domain, nest_path holds
when ignore_path is false and the domain has more than one path.  When
nest_path holds, the path assignment orphans the target (see ExpSt), so
all of that domain's cookies are dropped from the result. -/
def to_dict (jar : Jar) (ignore_domain ignore_path : Bool) : Val :=
  let nest_domain := !ignore_domain && decide (1 < jar.length)
  let final := List.foldl
    (fun st dp =>
      let st1 := if nest_domain then
          { root := eSet st.root dp.1 (.vDict .nil), tgt := some (some dp.1) }
        else st
      let nest_path := !ignore_path && decide (1 < dp.2.length)
      List.foldl
        (fun st2 pp =>
          let st3 := if nest_path then { st2 with tgt := none } else st2
          List.foldl
            (fun st4 nc => targetInsert st4 nc.1 (cookie_to_dict nc.2))
            st3 pp.2)
        st1 dp.2)
    (ExpSt.mk .nil (some none)) jar
  .vDict final.root

/-- UTF-8 encoding of a single character (RFC 3629), as a list of byte
values below 256. -/
def utf8Char (c : Char) : List Nat :=
  let n := c.toNat
  if n < 0x80 then [n]
  else if n < 0x800 then
    [0xC0 ||| (n >>> 6), 0x80 ||| (n &&& 0x3F)]
  else if n < 0x10000 then
    [0xE0 ||| (n >>> 12), 0x80 ||| ((n >>> 6) &&& 0x3F), 0x80 ||| (n &&& 0x3F)]
  else
    [0xF0 ||| (n >>> 18), 0x80 ||| ((n >>> 12) &&& 0x3F),
     0x80 ||| ((n >>> 6) &&& 0x3F), 0x80 ||| (n &&& 0x3F)]

/-- The utf-8 codecs encoder applied to a string: its byte sequence. -/
def utf8 (s : String) : List Nat := s.data.flatMap utf8Char

theorem utf8_append (a b : String) : utf8 (a ++ b) = utf8 a ++ utf8 b := by
  simp [utf8, String.data_append]

/-- A regular form field value: a string, or a numeric value that the
encoder converts with str() before encoding. -/
inductive FieldVal where
  | fvStr : String → FieldVal
  | fvInt : Int → FieldVal
deriving DecidableEq

/-- The value text written for a field: strings verbatim, numeric values
in decimal string form. -/
def fieldValStr : FieldVal → String
  | .fvStr s => s
  | .fvInt n => toString n

/-- One element of the files sequence:
(name, filename, contenttype, filedata). -/
structure FilePart where
  name : String
  filename : String
  contenttype : Option String
  filedata : List Nat
deriving DecidableEq

/-- The extension of a filename: the characters after the last dot, or
empty when the name has no dot. -/
def lastExt (filename : String) : String :=
  let step := fun (st : Option (List Char)) (ch : Char) =>
    if ch = '.' then some [] else
      match st with
      | none => none
      | some cs => some (cs ++ [ch])
  match filename.data.foldl step none with
  | none => ""
  | some cs => String.mk cs

/-- Modelled from the spec: mimetypes.guess_type of the Python standard
library (not part of the sources under verification).  The spec requires
the type guessed from the filename extension, image/png for a png file,
and no guess for an unrecognized extension; a small representative
extension table realizes that. -/
def guess_type (filename : String) : Option String :=
  let e := lastExt filename
  if e = "png" then some "image/png"
  else if e = "jpg" then some "image/jpeg"
  else if e = "jpeg" then some "image/jpeg"
  else if e = "gif" then some "image/gif"
  else if e = "txt" then some "text/plain"
  else none

/-- The Content-Type chosen for a file part:
contenttype or mimetypes.guess_type(filename)[0] or
'application/octet-stream', with Python's or falling through on falsy
(None or empty) values. -/
def partContentType (contenttype : Option String) (filename : String) : String :=
  let g := match guess_type filename with
    | some t => if t = "" then "application/octet-stream" else t
    | none => "application/octet-stream"
  match contenttype with
  | some s => if s = "" then g else s
  | none => g

/-- MultipartFormDataEncoder.iter: the chunk sequence yielded for the
given fields and files, each text chunk utf-8 encoded, file data passed
through unmodified. -/
def iterChunks (boundary : String) (fields : List (String × FieldVal))
    (files : List FilePart) : List (List Nat) :=
  (fields.flatMap (fun kv =>
    [utf8 ("--" ++ boundary ++ "\r\n"),
     utf8 ("Content-Disposition: form-data; name=\"" ++ kv.1 ++ "\"\r\n"),
     utf8 "\r\n",
     utf8 (fieldValStr kv.2),
     utf8 "\r\n"]))
  ++ (files.flatMap (fun f =>
    [utf8 ("--" ++ boundary ++ "\r\n"),
     utf8 ("Content-Disposition: form-data; name=\"" ++ f.name
           ++ "\"; filename=\"" ++ f.filename ++ "\"\r\n"),
     utf8 ("Content-Type: " ++ partContentType f.contenttype f.filename ++ "\r\n"),
     utf8 "Content-Transfer-Encoding: binary\r\n",
     utf8 "\r\n",
     f.filedata,
     utf8 "\r\n"]))
  ++ [utf8 ("--" ++ boundary ++ "--\r\n")]

/-- MultipartFormDataEncoder.encode: the body bytes, the concatenation of
all chunks written to the BytesIO buffer. -/
def encode (boundary : String) (fields : List (String × FieldVal))
    (files : List FilePart) : List Nat :=
  (iterChunks boundary fields files).flatten

/-- The body of one regular field part as the specification words it: the
boundary line, the Content-Disposition line, a blank line, the value in
its string form, a trailing CRLF — all utf-8 encoded. -/
def specFieldPart (boundary : String) (kv : String × FieldVal) : List Nat :=
  utf8 ("--" ++ boundary ++ "\r\n"
    ++ "Content-Disposition: form-data; name=\"" ++ kv.1 ++ "\"\r\n"
    ++ "\r\n" ++ fieldValStr kv.2 ++ "\r\n")

/-- The body of one file part as the specification words it: boundary
line, disposition line with filename, Content-Type line, a
Content-Transfer-Encoding: binary line, a blank line, then the raw file
bytes copied verbatim and a trailing CRLF. -/
def specFilePart (boundary : String) (f : FilePart) : List Nat :=
  utf8 ("--" ++ boundary ++ "\r\n"
    ++ "Content-Disposition: form-data; name=\"" ++ f.name
    ++ "\"; filename=\"" ++ f.filename ++ "\"\r\n"
    ++ "Content-Type: " ++ partContentType f.contenttype f.filename ++ "\r\n"
    ++ "Content-Transfer-Encoding: binary\r\n"
    ++ "\r\n")
  ++ f.filedata ++ utf8 "\r\n"

/-- The whole multipart body as the specification words it: every field
part in input order, then every file part in input order, then the
closing boundary line. -/
def specMultipartBody (boundary : String) (fields : List (String × FieldVal))
    (files : List FilePart) : List Nat :=
  (fields.map (specFieldPart boundary)).flatten
  ++ (files.map (specFilePart boundary)).flatten
  ++ utf8 ("--" ++ boundary ++ "--\r\n")

/-- The default record: the default attribute table, rest = {}, and the
four derived booleans recomputed from the default port, domain and path
(path "/" is truthy, so path_specified is true). -/
def defaultCookie : Cookie :=
  { version := .vInt 0, name := .vStr "", value := .vStr "",
    port := .vNone, domain := .vStr "", path := .vStr "/",
    secure := .vBool false, expires := .vNone, discard := .vBool true,
    comment := .vNone, comment_url := .vNone, rfc2109 := .vBool false,
    rest := .vDict .nil, port_specified := .vBool false,
    domain_specified := .vBool false, domain_initial_dot := .vBool false,
    path_specified := .vBool true }

/-- A cookie "a" = "1" at the default domain and path. -/
def cookieA : Cookie := { defaultCookie with name := .vStr "a", value := .vStr "1" }

/-- A cookie "b" = "2" at the default domain, path "/x". -/
def cookieB : Cookie :=
  { defaultCookie with name := .vStr "b", value := .vStr "2", path := .vStr "/x" }

/-- A store holding cookieA and cookieB: one domain, two paths. -/
def jarTwoPaths : Jar := jarSet (jarSet [] cookieA) cookieB

/-- A store holding two cookies under one domain and one path. -/
def jarFlat : Jar :=
  jarSet (jarSet [] cookieA) ({ defaultCookie with name := .vStr "b", value := .vStr "2" })

/-- A mapping with three non-cookie nesting levels ("d", then "p", then
"q") above a cookie mapping. -/
def deepDict : Val :=
  .vDict (.cons (.vStr "d") (.vDict (.cons (.vStr "p")
    (.vDict (.cons (.vStr "q") (.vDict (.cons (.vStr "c")
      (.vDict (.cons (.vStr "name") (.vStr "x")
        (.cons (.vStr "value") (.vStr "y") .nil))) .nil)) .nil)) .nil)) .nil)

/-- An existing cookie named "sid" with value "old". -/
def sidOld : Cookie := { defaultCookie with name := .vStr "sid", value := .vStr "old" }

/-- A store already holding the "sid" cookie. -/
def jarSid : Jar := jarSet [] sidOld

/-- A nested import mapping carrying a cookie named "sid" with value
"new" one nesting level down. -/
def nestedSid : Val :=
  .vDict (.cons (.vStr "sub") (.vDict (.cons (.vStr "sid")
    (.vDict (.cons (.vStr "name") (.vStr "sid")
      (.cons (.vStr "value") (.vStr "new") .nil))) .nil)) .nil)

/-- A store with two cookies, one with a null expiration and one expiring
at 5. -/
def jarMixedExpires : Jar :=
  jarSet (jarSet [] cookieA)
    ({ defaultCookie with name := .vStr "b", value := .vStr "2", expires := .vInt 5 })

/-- C1.  The export/import round-trip does not reconstruct every store:
for the store jarTwoPaths (two cookies, one domain, two paths) the export
with default flags is the empty mapping — in the source, the path-nesting
assignment target = target[path] = {} rebinds target before evaluating
the subscription, so the per-path dicts become orphaned self-referential
dicts never attached to the returned cookie_dict — and importing that
empty mapping yields the empty store, whose key set differs from the
original.  This contradicts the to_dict docstring's own
one-domain-multiple-paths example, so the code, not the claim, is wrong. -/
theorem claim_C1_roundtrip_failure :
    to_dict jarTwoPaths false false = .vDict .nil
    ∧ set_cookies_from_dict [] (to_dict jarTwoPaths false false) true none none
        = .ok ([] : Jar)
    ∧ ([] : Jar) ≠ jarTwoPaths := by
  refine ⟨by decide, by decide, by decide⟩

/-- C2.  Importing a mapping with three non-cookie nesting levels into an
empty store raises no error and commits the innermost cookie: the
recursive call passes domain=domain, so from a top-level call domain is
never bound, path is never bound either, and the InvalidDictionaryError
("No Cookies found in dictionary") branch is unreachable.  The claim
describes the intended behavior (each recursion step binds one of
domain/path, depth capped at two); the code is the slip. -/
theorem claim_C2_deep_import_no_error :
    set_cookies_from_dict [] deepDict true none none
      = .ok (jarSet [] ({ defaultCookie with name := .vStr "x", value := .vStr "y" }))
    ∧ jarSet [] ({ defaultCookie with name := .vStr "x", value := .vStr "y" }) ≠ ([] : Jar) := by
  refine ⟨by decide, by decide⟩

/-- C3.  overwrite=false is not honored for nested mappings: the
recursive call omits the overwrite argument, which reverts to its default
True, so importing a nested mapping carrying a cookie named "sid" into a
store that already holds a "sid" cookie replaces it instead of skipping
it.  The claim (never overwrite an existing name when overwrite is false)
matches the method's documented contract; the code drops the flag. -/
theorem claim_C3_overwrite_not_propagated :
    set_cookies_from_dict jarSid nestedSid false none none
      = .ok (jarSet jarSid ({ defaultCookie with name := .vStr "sid", value := .vStr "new" }))
    ∧ jarSet jarSid ({ defaultCookie with name := .vStr "sid", value := .vStr "new" }) ≠ jarSid := by
  refine ⟨by decide, by decide⟩

/-- C4, counterexample.  On a store mixing a null and a non-null
expiration, expires_earliest does not return the minimum of the non-null
values (5): min compares the raw expires values and the comparison of 5
with None raises TypeError. -/
theorem claim_C4_counterexample :
    expires_earliest jarMixedExpires = .error .compareTypeError
    ∧ expires_earliest jarMixedExpires ≠ .ok (.vInt 5) := by
  refine ⟨by decide, by decide⟩

/-- C9.  Export nesting does not behave as claimed for multiple paths:
for a store with one domain and one path the export is flat as claimed
(first conjunct), but for the store jarTwoPaths (one domain, two paths),
where the claim and the to_dict docstring call for nesting by path, the
export is the empty mapping: the path-nesting assignment
target = target[path] = {} rebinds target before evaluating the
subscription, orphaning the per-path dict and losing every cookie of the
domain. -/
theorem claim_C9_path_nesting_failure :
    to_dict jarFlat false false
      = .vDict (.cons (.vStr "a")
          (.vDict (.cons (.vStr "name") (.vStr "a")
            (.cons (.vStr "value") (.vStr "1") .nil)))
          (.cons (.vStr "b")
            (.vDict (.cons (.vStr "name") (.vStr "b")
              (.cons (.vStr "value") (.vStr "2") .nil))) .nil))
    ∧ to_dict jarTwoPaths false false = .vDict .nil := by
  refine ⟨by decide, by decide⟩

theorem minFold_allInt (xs : List Val) (a : Int)
    (h : ∀ e ∈ xs, ∃ n : Int, e = Val.vInt n) :
    ∃ m : Int, pyMinFold (.vInt a) xs = .ok (.vInt m)
      ∧ (m = a ∨ Val.vInt m ∈ xs) ∧ m ≤ a
      ∧ ∀ n : Int, Val.vInt n ∈ xs → m ≤ n := by
  induction xs generalizing a with
  | nil => exact ⟨a, rfl, Or.inl rfl, le_refl a, by simp⟩
  | cons y ys ih =>
    obtain ⟨b, rfl⟩ := h y (List.mem_cons_self y ys)
    have hys : ∀ e ∈ ys, ∃ n : Int, e = Val.vInt n :=
      fun e he => h e (List.mem_cons_of_mem _ he)
    by_cases hba : b < a
    · obtain ⟨m, hm, hmem, hma, hall⟩ := ih b hys
      refine ⟨m, ?_, ?_, ?_, ?_⟩
      · simp [pyMinFold, pyLt, numVal, hba, hm]
      · rcases hmem with rfl | hmem
        · exact Or.inr (List.mem_cons_self _ ys)
        · exact Or.inr (List.mem_cons_of_mem _ hmem)
      · exact le_of_lt (lt_of_le_of_lt hma hba)
      · intro n hn
        rcases List.mem_cons.mp hn with hn | hn
        · cases hn
          exact hma
        · exact hall n hn
    · obtain ⟨m, hm, hmem, hma, hall⟩ := ih a hys
      refine ⟨m, ?_, ?_, hma, ?_⟩
      · simp [pyMinFold, pyLt, numVal, hba, hm]
      · rcases hmem with rfl | hmem
        · exact Or.inl rfl
        · exact Or.inr (List.mem_cons_of_mem _ hmem)
      · intro n hn
        rcases List.mem_cons.mp hn with hn | hn
        · cases hn
          exact le_trans hma (le_of_not_lt hba)
        · exact hall n hn

theorem minFold_noneMem (xs : List Val) (acc : Val)
    (hx : ∀ e ∈ xs, e = Val.vNone ∨ ∃ n : Int, e = Val.vInt n)
    (ha : acc = Val.vNone ∨ ∃ n : Int, acc = Val.vInt n)
    (hmem : Val.vNone ∈ xs) :
    pyMinFold acc xs = .error .compareTypeError := by
  induction xs generalizing acc with
  | nil => cases hmem
  | cons y ys ih =>
    rcases hx y (List.mem_cons_self y ys) with rfl | ⟨b, rfl⟩
    · rcases ha with rfl | ⟨a, rfl⟩ <;> simp [pyMinFold, pyLt, numVal]
    · rcases ha with rfl | ⟨a, rfl⟩
      · simp [pyMinFold, pyLt, numVal]
      · have hys : ∀ e ∈ ys, e = Val.vNone ∨ ∃ n : Int, e = Val.vInt n :=
          fun e he => hx e (List.mem_cons_of_mem _ he)
        have hmem' : Val.vNone ∈ ys := by
          rcases List.mem_cons.mp hmem with hc | hc
          · cases hc
          · exact hc
        by_cases hba : b < a
        · have := ih (Val.vInt b) hys (Or.inr ⟨b, rfl⟩) hmem'
          simp [pyMinFold, pyLt, numVal, hba, this]
        · have := ih (Val.vInt a) hys (Or.inr ⟨a, rfl⟩) hmem'
          simp [pyMinFold, pyLt, numVal, hba, this]

theorem minFold_fromNone (y : Val) (ys : List Val)
    (hy : y = Val.vNone ∨ ∃ n : Int, y = Val.vInt n) :
    pyMinFold .vNone (y :: ys) = .error .compareTypeError := by
  rcases hy with rfl | ⟨b, rfl⟩ <;> simp [pyMinFold, pyLt, numVal]

/-- A cookie at the default location expiring at 9. -/
def cookieExp9 : Cookie :=
  { defaultCookie with name := .vStr "a", value := .vStr "1", expires := .vInt 9 }

/-- A cookie at the default location expiring at 5. -/
def cookieExp5 : Cookie :=
  { defaultCookie with name := .vStr "b", value := .vStr "2", expires := .vInt 5 }

/-- A store with two cookies expiring at 9 and 5. -/
def jarIntExpires : Jar := jarSet (jarSet [] cookieExp9) cookieExp5

/-- The expiration value is None or an integer, the two shapes an actual
cookie expiration can take. -/
def intOrNone : Val → Bool
  | .vNone => true
  | .vInt _ => true
  | _ => false

/-- C4 (amended).  For a store whose expirations are each null or an
integer: expires_earliest returns the no-value sentinel None for the
empty store, and also for a single cookie with null expiration; when all
expirations are non-null it returns their minimum; but when the store has
at least two cookies and any expiration is null it raises TypeError (the
raw expires values are compared by min without filtering out None),
rather than returning the minimum of the non-null values as the claim
states. -/
theorem claim_C4_expires_earliest_amended (jar : Jar)
    (h0 : ∀ e ∈ (jarCookies jar).map Cookie.expires, intOrNone e = true) :
    (jarCookies jar = [] → expires_earliest jar = .ok .vNone)
    ∧ ((jarCookies jar).map Cookie.expires = [Val.vNone] →
        expires_earliest jar = .ok .vNone)
    ∧ ((∀ e ∈ (jarCookies jar).map Cookie.expires, e ≠ Val.vNone) →
        jarCookies jar ≠ [] →
        ∃ m : Int, expires_earliest jar = .ok (.vInt m)
          ∧ Val.vInt m ∈ (jarCookies jar).map Cookie.expires
          ∧ ∀ n : Int, Val.vInt n ∈ (jarCookies jar).map Cookie.expires → m ≤ n)
    ∧ (1 < ((jarCookies jar).map Cookie.expires).length →
        Val.vNone ∈ (jarCookies jar).map Cookie.expires →
        expires_earliest jar = .error .compareTypeError) := by
  have h : ∀ e ∈ (jarCookies jar).map Cookie.expires,
      e = Val.vNone ∨ ∃ n : Int, e = Val.vInt n := by
    intro e he
    have ht := h0 e he
    cases e with
    | vNone => exact Or.inl rfl
    | vInt n => exact Or.inr ⟨n, rfl⟩
    | vBool b => simp [intOrNone] at ht
    | vStr s => simp [intOrNone] at ht
    | vDict es => simp [intOrNone] at ht
  refine ⟨?_, ?_, ?_, ?_⟩
  · intro he
    simp [expires_earliest, pyMin, he]
  · intro he
    simp [expires_earliest, pyMin, he, pyMinFold]
  · intro hnn hne
    have : (jarCookies jar).map Cookie.expires ≠ [] := by
      simpa using hne
    obtain ⟨x, xs, hl⟩ := List.exists_cons_of_ne_nil this
    have hx : ∃ n : Int, x = Val.vInt n := by
      rcases h x (by rw [hl]; exact List.mem_cons_self x xs) with hc | hc
      · exact absurd hc (hnn x (by rw [hl]; exact List.mem_cons_self x xs))
      · exact hc
    obtain ⟨a, rfl⟩ := hx
    have hxs : ∀ e ∈ xs, ∃ n : Int, e = Val.vInt n := by
      intro e he
      rcases h e (by rw [hl]; exact List.mem_cons_of_mem _ he) with hc | hc
      · exact absurd hc (hnn e (by rw [hl]; exact List.mem_cons_of_mem _ he))
      · exact hc
    obtain ⟨m, hm, hmem, hma, hall⟩ := minFold_allInt xs a hxs
    refine ⟨m, ?_, ?_, ?_⟩
    · simp [expires_earliest, pyMin, hl, hm]
    · rw [hl]
      rcases hmem with rfl | hmem
      · exact List.mem_cons_self _ xs
      · exact List.mem_cons_of_mem _ hmem
    · intro n hn
      rw [hl] at hn
      rcases List.mem_cons.mp hn with hc | hc
      · cases hc
        exact hma
      · exact hall n hc
  · intro hlen hmem
    have : (jarCookies jar).map Cookie.expires ≠ [] := by
      intro hc
      rw [hc] at hlen
      simp at hlen
    obtain ⟨x, xs, hl⟩ := List.exists_cons_of_ne_nil this
    have hxs : ∀ e ∈ xs, e = Val.vNone ∨ ∃ n : Int, e = Val.vInt n :=
      fun e he => h e (by rw [hl]; exact List.mem_cons_of_mem _ he)
    have hxt : x = Val.vNone ∨ ∃ n : Int, x = Val.vInt n :=
      h x (by rw [hl]; exact List.mem_cons_self x xs)
    have hxsne : xs ≠ [] := by
      intro hc
      rw [hl, hc] at hlen
      simp at hlen
    rcases hxt with rfl | ⟨a, rfl⟩
    · obtain ⟨y, ys, rfl⟩ := List.exists_cons_of_ne_nil hxsne
      have hy := hxs y (List.mem_cons_self y ys)
      simp [expires_earliest, pyMin, hl, minFold_fromNone y ys hy]
    · have hmem' : Val.vNone ∈ xs := by
        rw [hl] at hmem
        rcases List.mem_cons.mp hmem with hc | hc
        · cases hc
        · exact hc
      simp [expires_earliest, pyMin, hl,
        minFold_noneMem xs (Val.vInt a) hxs (Or.inr ⟨a, rfl⟩) hmem']

/-- Witness for C4's amended theorem, at the store jarIntExpires: the
all-integer branch yields the minimum expiration. -/
theorem claim_C4_witness :
    ∃ m : Int, expires_earliest jarIntExpires = .ok (.vInt m)
      ∧ Val.vInt m ∈ (jarCookies jarIntExpires).map Cookie.expires
      ∧ ∀ n : Int, Val.vInt n ∈ (jarCookies jarIntExpires).map Cookie.expires → m ≤ n :=
  (claim_C4_expires_earliest_amended jarIntExpires (by decide)).2.2.1
    (by decide) (by decide)

theorem pyEq_vStr_right (k : Val) (a : String) (h : pyEq k (.vStr a) = true) :
    k = .vStr a := by
  cases k <;> simp_all [pyEq, numVal]

theorem pyEq_vStr_left (k : Val) (a : String) (h : pyEq (.vStr a) k = true) :
    k = .vStr a := by
  cases k <;> simp_all [pyEq, numVal]

theorem eContains_lookup (k : Val) :
    ∀ es : Entries, eContains es k = true → ∃ v, eLookup es k = some v
  | .nil => by
    intro h
    simp [eContains] at h
  | .cons k1 v1 r => by
    by_cases hk : pyEq k1 k = true
    · intro _
      exact ⟨v1, by simp [eLookup, hk]⟩
    · intro hc
      simp only [eContains, Bool.or_eq_true] at hc
      rcases hc with hc | hc
      · exact absurd hc hk
      · obtain ⟨v, hv⟩ := eContains_lookup k r hc
        exact ⟨v, by simp [eLookup, hk, hv]⟩

theorem eContains_lookup_none (k : Val) :
    ∀ es : Entries, eContains es k = false → eLookup es k = none
  | .nil => by intro _; rfl
  | .cons k1 v1 r => by
    intro hc
    simp only [eContains, Bool.or_eq_false_iff] at hc
    simp [eLookup, hc.1, eContains_lookup_none k r hc.2]

theorem eLookup_eSet_hit (a : String) (v : Val) :
    ∀ b : Entries, eLookup (eSet b (.vStr a) v) (.vStr a) = some v
  | .nil => by simp [eSet, eLookup, pyEq_refl]
  | .cons k1 v1 r => by
    by_cases hk : pyEq k1 (.vStr a) = true
    · simp [eSet, hk, eLookup]
    · simp [eSet, hk, eLookup, eLookup_eSet_hit a v r]

theorem eLookup_eSet_miss (a : String) (k v : Val) (hka : pyEq k (.vStr a) = false) :
    ∀ b : Entries, eLookup (eSet b k v) (.vStr a) = eLookup b (.vStr a)
  | .nil => by simp [eSet, eLookup, hka]
  | .cons k1 v1 r => by
    by_cases hk : pyEq k1 k = true
    · have hk1a : pyEq k1 (.vStr a) = false := by
        by_contra hc
        have h1 : k1 = Val.vStr a := pyEq_vStr_right k1 a (by revert hc; cases pyEq k1 (.vStr a) <;> simp)
        have h2 : k = Val.vStr a := pyEq_vStr_left k a (h1 ▸ hk)
        rw [h2, pyEq_refl] at hka
        cases hka
      simp [eSet, hk, eLookup, hk1a]
    · by_cases hq : pyEq k1 (.vStr a) = true
      · simp [eSet, hk, eLookup, hq]
      · simp [eSet, hk, eLookup, hq, eLookup_eSet_miss a k v hka r]

theorem eLookup_eUpdate_notin (a : String) :
    ∀ (dct base : Entries), eContains dct (.vStr a) = false →
      eLookup (eUpdate base dct) (.vStr a) = eLookup base (.vStr a)
  | .nil => by intro base _; rfl
  | .cons k w r => by
    intro base hc
    simp only [eContains, Bool.or_eq_false_iff] at hc
    rw [show eUpdate base (.cons k w r) = eUpdate (eSet base k w) r from rfl,
      eLookup_eUpdate_notin a r (eSet base k w) hc.2,
      eLookup_eSet_miss a k w hc.1 base]

theorem eLookup_eUpdate_in (a : String) (v : Val) :
    ∀ (dct base : Entries), eKeysDistinct dct = true →
      eLookup dct (.vStr a) = some v →
      eLookup (eUpdate base dct) (.vStr a) = some v
  | .nil => by
    intro base _ hl
    simp [eLookup] at hl
  | .cons k w r => by
    intro base hd hl
    simp only [eKeysDistinct, Bool.and_eq_true] at hd
    by_cases hk : pyEq k (.vStr a) = true
    · have hka : k = Val.vStr a := pyEq_vStr_right k a hk
    -- the looked-up entry is the head: its value is written into base and
    -- no later entry of dct touches the same key
      have hv : w = v := by
        simp [eLookup, hk] at hl
        exact hl
      subst hka hv
      rw [show eUpdate base (.cons (Val.vStr a) w r) = eUpdate (eSet base (.vStr a) w) r from rfl,
        eLookup_eUpdate_notin a r (eSet base (.vStr a) w) (by simpa using hd.1),
        eLookup_eSet_hit a w base]
    · have hl' : eLookup r (.vStr a) = some v := by
        simpa [eLookup, hk] using hl
      exact eLookup_eUpdate_in a v r (eSet base k w) hd.2 hl'

theorem kwLookup (es : Entries) (hd : eKeysDistinct es = true) (a : String) (d : Val)
    (hbase : eLookup kwargsInit (.vStr a) = some d) :
    eLookup (eUpdate kwargsInit es) (.vStr a) = some ((eLookup es (.vStr a)).getD d) := by
  by_cases hc : eContains es (.vStr a) = true
  · obtain ⟨v, hv⟩ := eContains_lookup (.vStr a) es hc
    rw [eLookup_eUpdate_in a v es kwargsInit hd hv, hv]
    rfl
  · have hn := eContains_lookup_none (.vStr a) es (by revert hc; cases eContains es (.vStr a) <;> simp)
    rw [eLookup_eUpdate_notin a es kwargsInit (by revert hc; cases eContains es (.vStr a) <;> simp),
      hbase, hn]
    rfl

/-- The overlaid domain value is either absent from the mapping or a
string (a non-string domain would make .startswith raise). -/
def strOrAbsent : Option Val → Bool
  | none => true
  | some (.vStr _) => true
  | _ => false

/-- The record the claim describes: the supplied mapping overlaid onto
the default attribute table, with rest defaulting to {}, and the four
derived booleans recomputed from the overlaid port, domain and path. -/
def overlayCookie (es : Entries) : Cookie :=
  let ov := fun (a : String) (d : Val) => (eLookup es (.vStr a)).getD d
  let dm := ov "domain" (.vStr "")
  { version := ov "version" (.vInt 0), name := ov "name" (.vStr ""),
    value := ov "value" (.vStr ""), port := ov "port" .vNone,
    domain := dm, path := ov "path" (.vStr "/"),
    secure := ov "secure" (.vBool false), expires := ov "expires" .vNone,
    discard := ov "discard" (.vBool true), comment := ov "comment" .vNone,
    comment_url := ov "comment_url" .vNone, rfc2109 := ov "rfc2109" (.vBool false),
    rest := ov "rest" (.vDict .nil),
    port_specified := .vBool (truthy (ov "port" .vNone)),
    domain_specified := .vBool (truthy dm),
    domain_initial_dot := .vBool (match dm with | .vStr s => s.startsWith "." | _ => false),
    path_specified := .vBool (truthy (ov "path" (.vStr "/"))) }

/-- C5.  cookie_from_dict fails with the MalformedCookieError kind
exactly when "name" or "value" is absent; it fails with the
UnexpectedKeyError kind exactly when name and value are present and some
key falls outside the twelve fixed attributes plus "rest"; and otherwise
(for a well-formed mapping: distinct keys, and a domain value that is a
string when present, since .startswith is called on it) it returns the
default table overlaid with the mapping, with the four derived booleans
recomputed. -/
theorem claim_C5_cookie_from_dict (es : Entries) :
    (cookie_from_dict (.vDict es) = .error .malformedCookie ↔
      (eContains es (.vStr "name") = false ∨ eContains es (.vStr "value") = false))
    ∧ (cookie_from_dict (.vDict es) = .error .unexpectedKeys ↔
      (eContains es (.vStr "name") = true ∧ eContains es (.vStr "value") = true ∧
        ((eKeys es).any fun k => !(kwargNames.any fun a => pyEq k (.vStr a))) = true))
    ∧ (eContains es (.vStr "name") = true →
        eContains es (.vStr "value") = true →
        ((eKeys es).any fun k => !(kwargNames.any fun a => pyEq k (.vStr a))) = false →
        eKeysDistinct es = true →
        strOrAbsent (eLookup es (.vStr "domain")) = true →
        cookie_from_dict (.vDict es) = .ok (overlayCookie es)) := by
  refine ⟨?_, ?_, ?_⟩
  · cases hA : eContains es (.vStr "name") with
    | false => simp [cookie_from_dict, hA]
    | true =>
      cases hB : eContains es (.vStr "value") with
      | false => simp [cookie_from_dict, hA, hB]
      | true =>
        cases hX : (eKeys es).any fun k => !(kwargNames.any fun a => pyEq k (.vStr a)) with
        | true => simp [cookie_from_dict, hA, hB, hX]
        | false =>
          simp only [cookie_from_dict, hA, hB, hX, Bool.not_true, Bool.or_self,
            Bool.false_eq_true, if_false]
          constructor
          · intro hc
            split at hc <;> simp_all
          · intro hc
            simp at hc
  · cases hA : eContains es (.vStr "name") with
    | false => simp [cookie_from_dict, hA]
    | true =>
      cases hB : eContains es (.vStr "value") with
      | false => simp [cookie_from_dict, hA, hB]
      | true =>
        cases hX : (eKeys es).any fun k => !(kwargNames.any fun a => pyEq k (.vStr a)) with
        | true => simp [cookie_from_dict, hA, hB, hX]
        | false =>
          simp only [cookie_from_dict, hA, hB, hX, Bool.not_true, Bool.or_self,
            Bool.false_eq_true, if_false]
          constructor
          · intro hc
            split at hc <;> simp_all
          · intro hc
            simp at hc
  · intro hA hB hX hd hdom
    have hver := kwLookup es hd "version" (.vInt 0) (by decide)
    have hnam := kwLookup es hd "name" (.vStr "") (by decide)
    have hval := kwLookup es hd "value" (.vStr "") (by decide)
    have hpor := kwLookup es hd "port" .vNone (by decide)
    have hdmn := kwLookup es hd "domain" (.vStr "") (by decide)
    have hpth := kwLookup es hd "path" (.vStr "/") (by decide)
    have hsec := kwLookup es hd "secure" (.vBool false) (by decide)
    have hexp := kwLookup es hd "expires" .vNone (by decide)
    have hdis := kwLookup es hd "discard" (.vBool true) (by decide)
    have hcom := kwLookup es hd "comment" .vNone (by decide)
    have hcou := kwLookup es hd "comment_url" .vNone (by decide)
    have hrfc := kwLookup es hd "rfc2109" (.vBool false) (by decide)
    have hrst := kwLookup es hd "rest" (.vDict .nil) (by decide)
    have hdm : ∃ s : String, (eLookup es (.vStr "domain")).getD (.vStr "") = .vStr s := by
      rcases hl : eLookup es (.vStr "domain") with _ | v
      · exact ⟨"", rfl⟩
      · rw [hl] at hdom
        cases v with
        | vStr t => exact ⟨t, rfl⟩
        | vNone => simp [strOrAbsent] at hdom
        | vBool b => simp [strOrAbsent] at hdom
        | vInt n => simp [strOrAbsent] at hdom
        | vDict d => simp [strOrAbsent] at hdom
    obtain ⟨s, hs⟩ := hdm
    simp only [cookie_from_dict, hA, hB, hX, Bool.not_true, Bool.or_self,
      Bool.false_eq_true, if_false, hdmn, Option.getD_some, hs]
    simp [mkCookie, overlayCookie, hver, hnam, hval, hpor, hdmn, hpth, hsec,
      hexp, hdis, hcom, hcou, hrfc, hrst, hs]

/-- The mapping with name "a", value "b" and domain ".x". -/
def esNameValDom : Entries :=
  .cons (.vStr "name") (.vStr "a") (.cons (.vStr "value") (.vStr "b")
    (.cons (.vStr "domain") (.vStr ".x") .nil))

/-- Witness for C5 at the mapping with name, value and a dotted domain:
the success branch returns the overlaid record. -/
theorem claim_C5_witness :
    cookie_from_dict (.vDict esNameValDom) = .ok (overlayCookie esNameValDom) :=
  (claim_C5_cookie_from_dict esNameValDom).2.2 (by decide) (by decide)
    (by decide) (by decide) (by decide)

theorem pyEq_symm (a b : Val) : pyEq a b = pyEq b a := by
  cases a <;> cases b <;> simp [pyEq, numVal] <;> constructor <;>
    (intro h; exact h.symm)

/-- Entry membership: the pair (k, v) occurs in the dict. -/
def ePairMem (es : Entries) (k v : Val) : Bool :=
  match es with
  | .nil => false
  | .cons k1 v1 r => (k1 = k && v1 = v) || ePairMem r k v

theorem eLookup_pairMem (q v : Val) :
    ∀ es : Entries, eLookup es q = some v →
      ∃ k1, ePairMem es k1 v = true ∧ pyEq k1 q = true
  | .nil => by
    intro hl
    simp [eLookup] at hl
  | .cons k1 v1 r => by
    intro hl
    by_cases hk : pyEq k1 q = true
    · refine ⟨k1, ?_, hk⟩
      have hv : v1 = v := by simpa [eLookup, hk] using hl
      simp [ePairMem, hv]
    · have hl' : eLookup r q = some v := by simpa [eLookup, hk] using hl
      obtain ⟨k2, hm, hq⟩ := eLookup_pairMem q v r hl'
      exact ⟨k2, by simp [ePairMem, hm], hq⟩

theorem ePairMem_eSet (k v k2 v2 : Val) :
    ∀ b : Entries, ePairMem (eSet b k v) k2 v2 = true →
      ePairMem b k2 v2 = true ∨ (pyEq k k2 = true ∧ v2 = v)
  | .nil => by
    intro hm
    simp [eSet, ePairMem] at hm
    exact Or.inr ⟨hm.1 ▸ pyEq_refl k, hm.2.symm⟩
  | .cons k1 v1 r => by
    intro hm
    by_cases hk : pyEq k1 k = true
    · simp only [eSet, hk, if_true, ePairMem, Bool.or_eq_true, Bool.and_eq_true,
        decide_eq_true_eq] at hm
      rcases hm with ⟨rfl, rfl⟩ | hm
      · exact Or.inr ⟨by rw [pyEq_symm]; exact hk, rfl⟩
      · exact Or.inl (by simp [ePairMem, hm])
    · simp only [eSet, hk, if_false, ePairMem, Bool.or_eq_true, Bool.and_eq_true,
        decide_eq_true_eq] at hm
      rcases hm with ⟨rfl, rfl⟩ | hm
      · exact Or.inl (by simp [ePairMem])
      · rcases ePairMem_eSet k v k2 v2 r hm with hin | hnew
        · exact Or.inl (by simp [ePairMem, hin])
        · exact Or.inr hnew

theorem eContains_of_lookup (q v : Val) :
    ∀ es : Entries, eLookup es q = some v → eContains es q = true
  | .nil => by
    intro hl
    simp [eLookup] at hl
  | .cons k1 v1 r => by
    intro hl
    by_cases hk : pyEq k1 q = true
    · simp [eContains, hk]
    · have hl' : eLookup r q = some v := by simpa [eLookup, hk] using hl
      simp [eContains, eContains_of_lookup q v r hl']

theorem eContains_eSet_miss (a : String) (k v : Val) (hka : pyEq k (.vStr a) = false) :
    ∀ b : Entries, eContains (eSet b k v) (.vStr a) = eContains b (.vStr a)
  | .nil => by simp [eSet, eContains, hka]
  | .cons k1 v1 r => by
    by_cases hk : pyEq k1 k = true
    · simp [eSet, hk, eContains]
    · simp [eSet, hk, eContains, eContains_eSet_miss a k v hka r]

/-- The defaults table assigns each attribute name a single default. -/
theorem attrDefaults_unique :
    ∀ ad ∈ attrDefaults, ∀ ad2 ∈ attrDefaults, ad.1 = ad2.1 → ad.2 = ad2.2 := by
  decide

/-- The property every entry of the attribute fold satisfies: a pair at a
fixed-attribute key holds that attribute's (non-default) value. -/
def attrPairProp (c : Cookie) (k v : Val) : Prop :=
  ∀ ad ∈ attrDefaults, k = Val.vStr ad.1 →
    v = getAttr c ad.1 ∧ pyEq v ad.2 = false

theorem fold_pairs_inv (c : Cookie) (L : List (String × Val)) :
    ∀ acc : Entries, (∀ ad ∈ L, ad ∈ attrDefaults) →
      (∀ k v, ePairMem acc k v = true → attrPairProp c k v) →
      ∀ k v, ePairMem (List.foldl
          (fun es ad => if pyEq (getAttr c ad.1) ad.2 then es
                        else eSet es (.vStr ad.1) (getAttr c ad.1)) acc L) k v = true →
        attrPairProp c k v := by
  induction L with
  | nil => exact fun acc _ hacc => hacc
  | cons ad L ih =>
    intro acc hL hacc k v hm
    have had : ad ∈ attrDefaults := hL ad (List.mem_cons_self ad L)
    have hL' : ∀ ad2 ∈ L, ad2 ∈ attrDefaults :=
      fun ad2 h2 => hL ad2 (List.mem_cons_of_mem ad h2)
    by_cases hdef : pyEq (getAttr c ad.1) ad.2 = true
    · rw [List.foldl_cons, if_pos hdef] at hm
      exact ih acc hL' hacc k v hm
    · rw [List.foldl_cons, if_neg hdef] at hm
      refine ih (eSet acc (.vStr ad.1) (getAttr c ad.1)) hL' ?_ k v hm
      intro k2 v2 hm2
      rcases ePairMem_eSet (.vStr ad.1) (getAttr c ad.1) k2 v2 acc hm2 with hold | ⟨hkk, rfl⟩
      · exact hacc k2 v2 hold
      · intro ad2 had2 hk2
        have hk2a : k2 = Val.vStr ad.1 := pyEq_vStr_left k2 ad.1 hkk
        have hnames : ad.1 = ad2.1 := by
          rw [hk2a] at hk2
          exact Val.vStr.inj hk2
        have hdefs : ad.2 = ad2.2 := attrDefaults_unique ad had ad2 had2 hnames
        refine ⟨by rw [hnames], ?_⟩
        rw [← hdefs]
        revert hdef
        cases pyEq (getAttr c ad.1) ad.2 <;> simp

/-- No fixed-attribute name is the string "rest". -/
theorem attrDefaults_ne_rest : ∀ ad ∈ attrDefaults, (ad.1 = "rest") = False := by
  decide

theorem fold_no_rest (c : Cookie) (L : List (String × Val)) :
    ∀ acc : Entries, (∀ ad ∈ L, (ad.1 = "rest") = False) →
      eContains acc (.vStr "rest") = false →
      eContains (List.foldl
          (fun es ad => if pyEq (getAttr c ad.1) ad.2 then es
                        else eSet es (.vStr ad.1) (getAttr c ad.1)) acc L)
        (.vStr "rest") = false := by
  induction L with
  | nil => exact fun acc _ hacc => hacc
  | cons ad L ih =>
    intro acc hL hacc
    have had : (ad.1 = "rest") = False := hL ad (List.mem_cons_self ad L)
    have hL' : ∀ ad2 ∈ L, (ad2.1 = "rest") = False :=
      fun ad2 h2 => hL ad2 (List.mem_cons_of_mem ad h2)
    by_cases hdef : pyEq (getAttr c ad.1) ad.2 = true
    · rw [List.foldl_cons, if_pos hdef]
      exact ih acc hL' hacc
    · rw [List.foldl_cons, if_neg hdef]
      refine ih (eSet acc (.vStr ad.1) (getAttr c ad.1)) hL' ?_
      rw [eContains_eSet_miss "rest" (.vStr ad.1) (getAttr c ad.1) ?_ acc]
      · exact hacc
      · simp [pyEq, numVal]
        intro hc
        exact (had ▸ hc : False)

theorem pyEq_vStr_false (s t : String) (h : ¬(s = t)) :
    pyEq (.vStr s) (.vStr t) = false := by
  simp [pyEq, numVal, h]

/-- C6.  Sparse encoding: cookie_to_dict stores no fixed-attribute key
whose value equals that attribute's default; it includes "rest" exactly
when the vendor-extension map is non-empty; and cookie_from_dict applied
to the mapping with just name "a" and value "b" yields the default record
with those two fields. -/
theorem claim_C6_sparse_encoding (c : Cookie) (l : Entries) (hr : c.rest = .vDict l) :
    (∀ ad ∈ attrDefaults, ∀ v,
        eLookup (cookieDictEntries c) (.vStr ad.1) = some v → v ≠ ad.2)
    ∧ (eContains (cookieDictEntries c) (.vStr "rest") = true ↔ l ≠ .nil)
    ∧ cookie_from_dict (.vDict (.cons (.vStr "name") (.vStr "a")
          (.cons (.vStr "value") (.vStr "b") .nil)))
        = .ok ({ defaultCookie with name := .vStr "a", value := .vStr "b" }) := by
  refine ⟨?_, ?_, by decide⟩
  · intro ad had v hl
    have hne : pyEq (Val.vStr "rest") (.vStr ad.1) = false :=
      pyEq_vStr_false "rest" ad.1
        (fun hc => ((attrDefaults_ne_rest ad had) ▸ hc.symm : False))
    have hl' : eLookup (List.foldl
        (fun es ad => if pyEq (getAttr c ad.1) ad.2 then es
                      else eSet es (.vStr ad.1) (getAttr c ad.1))
        Entries.nil attrDefaults) (.vStr ad.1) = some v := by
      by_cases ht : truthy c.rest = true
      · simp only [cookieDictEntries, ht, if_true] at hl
        rwa [eLookup_eSet_miss ad.1 (.vStr "rest") c.rest hne] at hl
      · rw [Bool.not_eq_true] at ht
        simpa only [cookieDictEntries, ht, Bool.false_eq_true, if_false] using hl
    obtain ⟨k1, hm, hq⟩ := eLookup_pairMem (.vStr ad.1) v _ hl'
    have hQ := fold_pairs_inv c attrDefaults Entries.nil (fun ad2 h2 => h2)
      (by intro k2 v2 hm2; simp [ePairMem] at hm2) k1 v hm
    have hk1 : k1 = .vStr ad.1 := pyEq_vStr_right k1 ad.1 hq
    obtain ⟨hv, hne2⟩ := hQ ad had hk1
    intro hveq
    rw [hveq, pyEq_refl] at hne2
    cases hne2
  · by_cases ht : truthy c.rest = true
    · constructor
      · intro _ hleq
        rw [hr, hleq] at ht
        simp [truthy] at ht
      · intro _
        simp only [cookieDictEntries, ht, if_true]
        exact eContains_of_lookup _ _ _ (eLookup_eSet_hit "rest" c.rest _)
    · rw [Bool.not_eq_true] at ht
      constructor
      · intro hcont
        have hf := fold_no_rest c attrDefaults Entries.nil attrDefaults_ne_rest rfl
        simp only [cookieDictEntries, ht, Bool.false_eq_true, if_false] at hcont
        rw [hcont] at hf
        cases hf
      · intro hlne
        rw [hr] at ht
        cases l with
        | nil => exact absurd rfl hlne
        | cons a b r => simp [truthy] at ht

/-- A cookie carrying one vendor-extension attribute. -/
def cookieWithRest : Cookie :=
  { defaultCookie with name := .vStr "a", value := .vStr "1",
                       rest := .vDict (.cons (.vStr "HttpOnly") .vNone .nil) }

/-- Witness for C6 at a cookie with a non-empty vendor-extension map: its
sparse dict contains the "rest" key. -/
theorem claim_C6_witness :
    eContains (cookieDictEntries cookieWithRest) (.vStr "rest") = true ↔
      Entries.cons (.vStr "HttpOnly") .vNone .nil ≠ .nil :=
  (claim_C6_sparse_encoding cookieWithRest
    (.cons (.vStr "HttpOnly") .vNone .nil) rfl).2.1

theorem fieldPart_flatten (b : String) :
    ∀ fields : List (String × FieldVal),
      (fields.flatMap (fun kv =>
        [utf8 ("--" ++ b ++ "\r\n"),
         utf8 ("Content-Disposition: form-data; name=\"" ++ kv.1 ++ "\"\r\n"),
         utf8 "\r\n",
         utf8 (fieldValStr kv.2),
         utf8 "\r\n"])).flatten = (fields.map (specFieldPart b)).flatten
  | [] => rfl
  | kv :: rest => by
    simp only [List.flatMap_cons, List.map_cons, List.flatten_append,
      List.flatten_cons, List.flatten_nil, List.append_nil]
    rw [fieldPart_flatten b rest]
    simp [specFieldPart, utf8_append, List.append_assoc]

theorem filePart_flatten (b : String) :
    ∀ files : List FilePart,
      (files.flatMap (fun f =>
        [utf8 ("--" ++ b ++ "\r\n"),
         utf8 ("Content-Disposition: form-data; name=\"" ++ f.name
               ++ "\"; filename=\"" ++ f.filename ++ "\"\r\n"),
         utf8 ("Content-Type: " ++ partContentType f.contenttype f.filename ++ "\r\n"),
         utf8 "Content-Transfer-Encoding: binary\r\n",
         utf8 "\r\n",
         f.filedata,
         utf8 "\r\n"])).flatten = (files.map (specFilePart b)).flatten
  | [] => rfl
  | f :: rest => by
    simp only [List.flatMap_cons, List.map_cons, List.flatten_append,
      List.flatten_cons, List.flatten_nil, List.append_nil]
    rw [filePart_flatten b rest]
    simp [specFilePart, utf8_append, List.append_assoc]

/-- C7.  The encoder produces exactly the body the specification words:
field parts in input order (boundary line, disposition line, blank line,
value in decimal string form for numeric values, trailing CRLF), then
file parts in input order (boundary line, disposition line with filename,
Content-Type line, Content-Transfer-Encoding: binary line, blank line,
the raw file bytes verbatim, trailing CRLF), then the closing boundary
line. -/
theorem claim_C7_encode_matches_spec (b : String)
    (fields : List (String × FieldVal)) (files : List FilePart) :
    encode b fields files = specMultipartBody b fields files := by
  unfold encode iterChunks specMultipartBody
  simp only [List.flatten_append, List.flatten_cons, List.flatten_nil, List.append_nil]
  rw [fieldPart_flatten b fields, filePart_flatten b files]

/-- C8, counterexample.  A supplied content type that is non-null but
empty is not used: Python's or treats the empty string as falsy, so the
Content-Type falls through to the extension guess (image/png for
"x.png"), contradicting the claim that the supplied content type is used
whenever it is non-null. -/
theorem claim_C8_counterexample :
    partContentType (some "") "x.png" = "image/png"
    ∧ partContentType (some "") "x.png" ≠ "" := by
  refine ⟨by decide, by decide⟩

/-- C8 (amended).  The Content-Type of a file part uses the supplied
content type when it is non-null and non-empty; when it is null or empty
it uses the type guessed from the filename extension; and when no guess
exists it falls back to application/octet-stream. -/
theorem claim_C8_content_type_amended (ct : Option String) (filename : String) :
    (∀ s, ct = some s → s ≠ "" → partContentType ct filename = s)
    ∧ ((ct = none ∨ ct = some "") → guess_type filename = none →
        partContentType ct filename = "application/octet-stream")
    ∧ (∀ g, (ct = none ∨ ct = some "") → guess_type filename = some g → g ≠ "" →
        partContentType ct filename = g) := by
  refine ⟨?_, ?_, ?_⟩
  · intro s hct hs
    subst hct
    simp [partContentType, hs]
  · intro hct hg
    rcases hct with rfl | rfl <;> simp [partContentType, hg]
  · intro g hct hg hgne
    rcases hct with rfl | rfl <;> simp [partContentType, hg, hgne]

/-- Witness for C8's amended theorem: a null content type with a png
filename yields the guessed image/png. -/
theorem claim_C8_witness : partContentType none "x.png" = "image/png" :=
  (claim_C8_content_type_amended none "x.png").2.2 "image/png" (Or.inl rfl)
    (by decide) (by decide)

/-- The ClientCookieJar object state the format claims concern: the
cookie store and the _format string. -/
structure Store where
  jar : Jar
  fmt : String
deriving DecidableEq

/-- The formats the setter accepts. -/
def validFormats : List String := ["dict", "json", "pickle", "str", "bytes"]

/-- The format property setter: assignment is honored only for one of the
five accepted strings and is otherwise a silent no-op. -/
def formatSet (s : Store) (nf : String) : Store :=
  if nf ∈ validFormats then { s with fmt := nf } else s

/-- Construction with no cookie_repr: empty store, format "pickle". -/
def initEmptyStore : Store := ⟨[], "pickle"⟩

/-- Modelled from the spec: construction from a pickled blob (the compat
pickle module is not part of the sources under verification; per the spec
the binary form round-trips the store exactly, so the blob is modelled by
the store it decodes to).  The format stays "pickle". -/
def initFromPickle (j : Jar) : Store := ⟨j, "pickle"⟩

/-- Construction from a dict cookie_repr: format becomes "dict" and the
mapping is imported; an import error propagates out of the
constructor. -/
def initFromDictStore (es : Entries) : Except PyErr Store :=
  match set_cookies_from_dict [] (.vDict es) true none none with
  | .ok j => .ok ⟨j, "dict"⟩
  | .error e => .error e

/-- ClientCookieJar.dump: returns the dict export when the effective
format (use_format if truthy, else the stored format) is "dict" or
"json", else the pickled store (modelled, per the spec's exact
round-trip requirement, by the jar itself); the method leaves the store
unchanged, which the returned pair makes explicit. -/
def dumpStore (s : Store) (use_format : Option String) : (Val ⊕ Jar) × Store :=
  let eff := match use_format with
    | some u => if u = "" then s.fmt else u
    | none => s.fmt
  (if eff = "dict" ∨ eff = "json" then Sum.inl (to_dict s.jar false false)
   else Sum.inr s.jar, s)

/-- The store states reachable through the public operations:
construction (empty, from a pickled blob, from a dict), format
assignment, dict import, and cookie insertion. -/
inductive Reach : Store → Prop where
  | init_empty : Reach initEmptyStore
  | init_pickle (j : Jar) : Reach (initFromPickle j)
  | init_dict (es : Entries) (s : Store) :
      initFromDictStore es = .ok s → Reach s
  | set_format (s : Store) (nf : String) : Reach s → Reach (formatSet s nf)
  | import_dict (s : Store) (v : Val) (ow : Bool) (j : Jar) : Reach s →
      set_cookies_from_dict s.jar v ow none none = .ok j → Reach ⟨j, s.fmt⟩
  | add_cookie (s : Store) (c : Cookie) : Reach s →
      Reach ⟨jarSet s.jar c, s.fmt⟩

/-- C10.  The format selector is always one of dict/json/pickle/str/bytes
on every reachable store; it starts as "pickle" (or "dict" when
constructed from a mapping); assigning a value outside the accepted set
is a silent no-op; and dump (with or without a format override) returns
the store unchanged. -/
theorem claim_C10_format_invariant :
    (∀ s : Store, Reach s → s.fmt ∈ validFormats)
    ∧ (∀ (s : Store) (nf : String), nf ∉ validFormats → formatSet s nf = s)
    ∧ (∀ (s : Store) (u : Option String), (dumpStore s u).2 = s)
    ∧ initEmptyStore.fmt = "pickle"
    ∧ (∀ j : Jar, (initFromPickle j).fmt = "pickle")
    ∧ (∀ (es : Entries) (s : Store), initFromDictStore es = .ok s → s.fmt = "dict") := by
  refine ⟨?_, ?_, fun s u => rfl, rfl, fun j => rfl, ?_⟩
  · intro s hs
    induction hs with
    | init_empty => decide
    | init_pickle j => simp [initFromPickle, validFormats]
    | init_dict es s hok =>
      unfold initFromDictStore at hok
      cases hc : set_cookies_from_dict [] (.vDict es) true none none with
      | ok j =>
        rw [hc] at hok
        cases hok
        simp [validFormats]
      | error e =>
        rw [hc] at hok
        cases hok
    | set_format s nf _ ih =>
      unfold formatSet
      by_cases hnf : nf ∈ validFormats
      · rw [if_pos hnf]
        exact hnf
      · rw [if_neg hnf]
        exact ih
    | import_dict s v ow j _ _ ih => exact ih
    | add_cookie s c _ ih => exact ih
  · intro s nf hnf
    simp [formatSet, hnf]
  · intro es s hok
    unfold initFromDictStore at hok
    cases hc : set_cookies_from_dict [] (.vDict es) true none none with
    | ok j =>
      rw [hc] at hok
      cases hok
      rfl
    | error e =>
      rw [hc] at hok
      cases hok

/-- Witness for C10 at a concrete reachable store: after constructing
empty and assigning the invalid format "xml", the store still holds a
valid format, and the assignment was a no-op. -/
theorem claim_C10_witness :
    (formatSet initEmptyStore "xml").fmt ∈ validFormats
    ∧ formatSet initEmptyStore "xml" = initEmptyStore :=
  ⟨claim_C10_format_invariant.1 (formatSet initEmptyStore "xml")
      (Reach.set_format initEmptyStore "xml" Reach.init_empty),
   claim_C10_format_invariant.2.1 initEmptyStore "xml" (by decide)⟩
